import Mathlib

/-!
Shallow embedding of the gltfio runtime core of this repository:
the `BlobCache` upload-lifetime protocol and `ResourceLoader::loadResources`
(from `ResourceLoader.cpp`), and the animation construction/evaluation
functions (from `libs/gltfio/src/Animator.cpp`).

Machine floats are modelled by rationals; C `fmod` is modelled by
truncated-division remainder on rationals.  `std::map<float, size_t>`
(the sampler timeline) is modelled by a strictly-sorted association list,
which is exactly the iteration order of the red-black tree.
-/

namespace Gltfio

/-! ## BlobCache (ResourceLoader.cpp, class BlobCache)

State of the cache: the `mPendingUploads` counter and the `mLoaderDestroyed`
flag.  `delete cache` is modelled by the step function reporting `true` for
the event that fires destruction.  The two mutating entry points are
`onLoadedResource` (an upload-completion callback, which decrements the
counter) and `onLoaderDestroyed` (called from the `ResourceLoader`
destructor). -/

structure CacheState where
  pendingUploads : Int
  loaderDestroyed : Bool
deriving Repr, DecidableEq

inductive CacheEvent where
  | complete
  | destroyLoader
deriving Repr, DecidableEq

/-- Step function of the cache protocol, translated from
`BlobCache::onLoadedResource` (`if (--mPendingUploads == 0 && mLoaderDestroyed) delete cache;`)
and `BlobCache::onLoaderDestroyed`
(`if (mPendingUploads == 0) delete this; else mLoaderDestroyed = true;`).
The returned `Bool` is `true` exactly when `delete` fires on this event. -/
def stepCache (s : CacheState) : CacheEvent → CacheState × Bool
  | .complete =>
      let p := s.pendingUploads - 1
      if p = 0 ∧ s.loaderDestroyed then ({ s with pendingUploads := p }, true)
      else ({ s with pendingUploads := p }, false)
  | .destroyLoader =>
      if s.pendingUploads = 0 then (s, true)
      else ({ s with loaderDestroyed := true }, false)

/-- Run a sequence of cache events, recording for each event whether the
destruction (`delete cache`) fired there. -/
def runDeletes (s : CacheState) : List CacheEvent → List Bool
  | [] => []
  | e :: rest =>
      let (s2, fired) := stepCache s e
      fired :: runDeletes s2 rest

/-! ## ResourceLoader::loadResources (ResourceLoader.cpp)

A `BufferBinding` is modelled by the presence of each of its four
destination pointers (`vertexBuffer`, `indexBuffer`, `animationBuffer`,
`orientationBuffer`; a null pointer is `false`) together with its `uri`.
The body of `loadResources` is modelled as the list of observable actions
it performs, in order, together with its boolean return value. -/

structure BufferBinding where
  uri : String
  vertexBuffer : Bool
  indexBuffer : Bool
  animationBuffer : Bool
  orientationBuffer : Bool
deriving Repr, DecidableEq

inductive LoadAction where
  /-- a call to `mCache->addPendingUpload()` (increments `mPendingUploads`) -/
  | incPending
  /-- an async `setBufferAt` dispatch for a vertex-buffer binding, with
  `BlobCache::onLoadedResource` as completion callback -/
  | dispatchVertexUpload (uri : String)
  /-- an async `setBuffer` dispatch for an index-buffer binding, with
  `BlobCache::onLoadedResource` as completion callback -/
  | dispatchIndexUpload (uri : String)
  /-- a synchronous `memcpy` into the animation staging buffer -/
  | memcpyAnimation (uri : String)
  /-- a synchronous `memcpy` into the orientation staging buffer -/
  | memcpyOrientation (uri : String)
  /-- an async `setBufferAt` dispatch from `computeTangents` for the packed
  orientation quaternions, whose completion callback is plain `free` -/
  | dispatchTangentUpload
  /-- the `slog.e << "Malformed binding ..."` error log -/
  | logMalformed (uri : String)
deriving Repr, DecidableEq

/-- Binding loop of `ResourceLoader::loadResources`, translated branch for
branch: `if (bb.vertexBuffer) ... else if (bb.indexBuffer) ... else if
(bb.animationBuffer) ... else if (bb.orientationBuffer) ... else { log;
return false; }`.  Returns the action trace and the boolean the loop
contributes to the return value (`false` aborts the remaining bindings). -/
def processBindings : List BufferBinding → List LoadAction × Bool
  | [] => ([], true)
  | bb :: rest =>
      if bb.vertexBuffer then
        (.incPending :: .dispatchVertexUpload bb.uri :: (processBindings rest).1,
         (processBindings rest).2)
      else if bb.indexBuffer then
        (.incPending :: .dispatchIndexUpload bb.uri :: (processBindings rest).1,
         (processBindings rest).2)
      else if bb.animationBuffer then
        (.memcpyAnimation bb.uri :: (processBindings rest).1, (processBindings rest).2)
      else if bb.orientationBuffer then
        (.memcpyOrientation bb.uri :: (processBindings rest).1, (processBindings rest).2)
      else
        ([.logMalformed bb.uri], false)

/-- Asset data that `loadResources` consumes: its binding list, whether
`cgltf_load_buffers` succeeds, the size of `mOrientationBuffer` (which gates
`computeTangents`), the number of mesh primitives for which
`computeTangents` dispatches a quaternion upload (those with a normals
attribute and a nonzero vertex count), and the per-texture decode results. -/
structure AssetModel where
  buffersOk : Bool
  bindings : List BufferBinding
  orientationBufferSize : Nat
  tangentPrimCount : Nat
  textureDecodesOk : List Bool
deriving Repr, DecidableEq

/-- Uploads dispatched by `ResourceLoader::computeTangents`: one
`setBufferAt` per primitive that has normals, each with callback `free` and
no interaction with the `BlobCache` pending-upload counter. -/
def computeTangentsTrace (a : AssetModel) : List LoadAction :=
  List.replicate a.tangentPrimCount .dispatchTangentUpload

/-- Action trace and return value of `ResourceLoader::loadResources`:
load buffers (early `false` on failure), run the binding loop (early
`false` on a malformed binding), run `computeTangents` when the orientation
buffer is nonempty, then decode textures (early `false` on a decode
failure). -/
def loadResources (a : AssetModel) : List LoadAction × Bool :=
  if ¬a.buffersOk then ([], false)
  else if ¬(processBindings a.bindings).2 then ((processBindings a.bindings).1, false)
  else
    ((processBindings a.bindings).1
       ++ (if 0 < a.orientationBufferSize then computeTangentsTrace a else []),
     a.textureDecodesOk.all id)

/-- Marker for the actions that increment the pending-upload counter. -/
def isInc : LoadAction → Bool
  | .incPending => true
  | _ => false

/-- Marker for every asynchronous upload dispatch occurring during
`loadResources`, the tangent-quaternion uploads included. -/
def isAsyncDispatch : LoadAction → Bool
  | .dispatchVertexUpload _ => true
  | .dispatchIndexUpload _ => true
  | .dispatchTangentUpload => true
  | _ => false

/-- Marker for the asynchronous dispatches of the binding loop only (the
ones whose completion callback is `BlobCache::onLoadedResource`). -/
def isBindingDispatch : LoadAction → Bool
  | .dispatchVertexUpload _ => true
  | .dispatchIndexUpload _ => true
  | _ => false

/-- Predicate on a trace: running the counter (`c` increments seen so far)
against the outstanding count of dispatches selected by `sel` (`o` so far),
every selected dispatch finds the counter already strictly above the
previously outstanding count, i.e. its increment happened strictly before
it and the counter never transiently reaches zero while such an upload is
outstanding. -/
def counterCovers (sel : LoadAction → Bool) (c o : Int) (l : List LoadAction) : Bool :=
  match l with
  | [] => true
  | a :: rest =>
      if isInc a then counterCovers sel (c + 1) o rest
      else if sel a then decide (o + 1 ≤ c) && counterCovers sel c (o + 1) rest
      else counterCovers sel c o rest

/-- Marker: does a binding have at least one destination field set? -/
def hasDest (bb : BufferBinding) : Bool :=
  bb.vertexBuffer || bb.indexBuffer || bb.animationBuffer || bb.orientationBuffer

/-- Concrete binding with two destination fields set (both `vertexBuffer`
and `indexBuffer` non-null). -/
def twoDestBinding : BufferBinding :=
  { uri := "mesh.bin", vertexBuffer := true, indexBuffer := true,
    animationBuffer := false, orientationBuffer := false }

/-- Concrete asset whose only binding has two destination fields set. -/
def twoDestAsset : AssetModel :=
  { buffersOk := true, bindings := [twoDestBinding],
    orientationBufferSize := 0, tangentPrimCount := 0, textureDecodesOk := [] }

/-- Concrete well-formed animation binding, used as the prefix before a
malformed binding. -/
def animBinding : BufferBinding :=
  { uri := "anim.bin", vertexBuffer := false, indexBuffer := false,
    animationBuffer := true, orientationBuffer := false }

/-- Concrete malformed binding: no destination field set. -/
def noDestBinding : BufferBinding :=
  { uri := "bad.bin", vertexBuffer := false, indexBuffer := false,
    animationBuffer := false, orientationBuffer := false }

/-- Concrete asset with a well-formed binding followed by a malformed one. -/
def malformedAsset : AssetModel :=
  { buffersOk := true, bindings := [animBinding, noDestBinding],
    orientationBufferSize := 0, tangentPrimCount := 0, textureDecodesOk := [] }

/-- Concrete asset with one orientation-data binding whose primitive has
normals, so `computeTangents` dispatches one quaternion upload. -/
def tangentAsset : AssetModel :=
  { buffersOk := true,
    bindings := [{ uri := "orient.bin", vertexBuffer := false,
                   indexBuffer := false, animationBuffer := false,
                   orientationBuffer := true }],
    orientationBufferSize := 1, tangentPrimCount := 1, textureDecodesOk := [] }

/-! ## Animator (libs/gltfio/src/Animator.cpp)

Float is modelled by `ℚ`.  The `std::map<float, size_t>` timeline
(`TimeValues`) is modelled by its iteration order: a list of (time, index)
pairs whose keys are strictly increasing.  `quatf`/`float3` reads from the
flat `SourceValues` array reinterpret it with stride 4 and 3 respectively.
The `slerp` kernel uses transcendental functions on floats, so it is kept
as an explicit function parameter of the evaluator. -/

inductive Interp where
  | LINEAR
  | STEP
  | CUBIC
deriving Repr, DecidableEq

structure Sampler where
  times : List (ℚ × ℕ)
  values : List ℚ
  interpolation : Interp
deriving Repr, DecidableEq

inductive TransformType where
  | TRANSLATION
  | ROTATION
  | SCALE
deriving Repr, DecidableEq

structure Channel where
  sourceData : Sampler
  targetInstance : ℕ
  transformType : TransformType
deriving Repr, DecidableEq

structure Animation where
  duration : ℚ
  name : String
  samplers : List Sampler
  channels : List Channel
deriving Repr, DecidableEq, Inhabited

structure Vec3 where
  x : ℚ
  y : ℚ
  z : ℚ
deriving Repr, DecidableEq

structure Quat where
  x : ℚ
  y : ℚ
  z : ℚ
  w : ℚ
deriving Repr, DecidableEq

/-- Truncation toward zero, as C float-to-int conversion does. -/
def truncQ (q : ℚ) : ℤ := if 0 ≤ q then ⌊q⌋ else ⌈q⌉

/-- C `fmod(x, y)`: the remainder `x - trunc(x / y) * y`, which has the
sign of `x`. -/
def fmodQ (x y : ℚ) : ℚ := x - y * truncQ (x / y)

/-- Read `((const float3*) &values[0])[i]`. -/
def vec3At (values : List ℚ) (i : ℕ) : Vec3 :=
  ⟨values.getD (3 * i) 0, values.getD (3 * i + 1) 0, values.getD (3 * i + 2) 0⟩

/-- Read `((const quatf*) &values[0])[i]` (components in memory order
x, y, z, w). -/
def quatAt (values : List ℚ) (i : ℕ) : Quat :=
  ⟨values.getD (4 * i) 0, values.getD (4 * i + 1) 0,
   values.getD (4 * i + 2) 0, values.getD (4 * i + 3) 0⟩

/-- Per-component linear blend `((1 - t) * a) + (t * b)`. -/
def lerpVec3 (t : ℚ) (a b : Vec3) : Vec3 :=
  ⟨(1 - t) * a.x + t * b.x, (1 - t) * a.y + t * b.y, (1 - t) * a.z + t * b.z⟩

/-- Transform written by `applyAnimation` to the transform manager: a pure
scale (`mat4f::scale`), pure translation (`mat4f::translate`) or pure
rotation (`mat4f(quatf)`) matrix, kept in tagged form. -/
inductive XformSpec where
  | scale (v : Vec3)
  | translate (v : Vec3)
  | rotate (q : Quat)
deriving Repr, DecidableEq

/-- Index of `times.lower_bound(w)`: the first position whose key is `≥ w`,
or `times.length` when there is none (the `end()` iterator). -/
def lowerBoundIdx (times : List (ℚ × ℕ)) (w : ℚ) : ℕ :=
  match times with
  | [] => 0
  | p :: rest => if w ≤ p.1 then 0 else lowerBoundIdx rest w + 1

/-- Selection of the two keyframes to interpolate between, translated from
the iterator cases of `applyAnimation`: at `end()` take (last, first); at
`begin()` take the first key twice; otherwise take the located key and its
immediate predecessor. -/
def selectPrevNext (times : List (ℚ × ℕ)) (w : ℚ) : (ℚ × ℕ) × (ℚ × ℕ) :=
  let i := lowerBoundIdx times w
  if i = times.length then (times.getLastD (0, 0), times.headD (0, 0))
  else if i = 0 then (times.headD (0, 0), times.headD (0, 0))
  else (times.getD (i - 1) (0, 0), times.getD i (0, 0))

/-- Value of the mutable `interval` variable of `applyAnimation` after the
wraparound fixup: `nextTime - prevTime`, with the animation duration added
when that difference is negative. -/
def effInterval (duration prevTime nextTime : ℚ) : ℚ :=
  if nextTime - prevTime < 0 then nextTime - prevTime + duration
  else nextTime - prevTime

/-- Interpolant computation of `applyAnimation`:
`t = interval == 0 ? 0 : (time - prevTime) / interval`. -/
def interpolant (duration prevTime nextTime w : ℚ) : ℚ :=
  if effInterval duration prevTime nextTime = 0 then 0
  else (w - prevTime) / effInterval duration prevTime nextTime

/-- Body of the per-channel loop of `Animator::applyAnimation`, for the
already-wrapped time `w`.  Returns `none` when the channel is skipped
(`times.size() < 2`), otherwise the `setTransform` call it performs. -/
def evalChannel (slerpFn : Quat → Quat → ℚ → Quat) (duration : ℚ)
    (ch : Channel) (w : ℚ) : Option (ℕ × XformSpec) :=
  if ch.sourceData.times.length < 2 then none
  else
    let pn := selectPrevNext ch.sourceData.times w
    let t := interpolant duration pn.1.1 pn.2.1 w
    let prevIndex := pn.1.2
    let nextIndex := pn.2.2
    some (ch.targetInstance,
      match ch.transformType with
      | .SCALE =>
          .scale (lerpVec3 t (vec3At ch.sourceData.values prevIndex)
            (vec3At ch.sourceData.values nextIndex))
      | .TRANSLATION =>
          .translate (lerpVec3 t (vec3At ch.sourceData.values prevIndex)
            (vec3At ch.sourceData.values nextIndex))
      | .ROTATION =>
          .rotate (slerpFn (quatAt ch.sourceData.values prevIndex)
            (quatAt ch.sourceData.values nextIndex) t))

/-- `Animator::applyAnimation`: wrap the requested time by `fmod` into the
animation's duration, then evaluate every channel in order; the result is
the ordered list of `setTransform(instance, xform)` calls performed. -/
def applyAnimation (slerpFn : Quat → Quat → ℚ → Quat) (anim : Animation)
    (time : ℚ) : List (ℕ × XformSpec) :=
  anim.channels.filterMap
    (fun ch => evalChannel slerpFn anim.duration ch (fmodQ time anim.duration))

/-- Largest time key of a sampler: `(--times.end())->first`, the last entry
of the ordered map. -/
def maxTimeKey (s : Sampler) : ℚ := (s.times.getLastD (0, 0)).1

/-- One step of the duration accumulation of the `Animator` constructor:
a sampler with more than one distinct time key extends the running duration
to its largest time key (`duration = std::max(duration, maxtime)`). -/
def durStep (d : ℚ) (s : Sampler) : ℚ :=
  if 1 < s.times.length then max d (maxTimeKey s) else d

/-- Duration accumulation of the `Animator` constructor: starting from 0,
every sampler with more than one distinct time key extends the duration to
its largest time key. -/
def computeDuration (samplers : List Sampler) : ℚ :=
  samplers.foldl durStep 0

/-- Name assembly of the `Animator` constructor: the `std::string` starts
empty and is assigned only when the glTF animation has a (non-null) name. -/
def buildName (srcName : Option String) : String := srcName.getD ""

/-- Per-animation assembly of the `Animator` constructor, after the
samplers have been converted and the channels resolved: the duration is
accumulated from the samplers and the name defaults to the empty string. -/
def buildAnimation (srcName : Option String) (samplers : List Sampler)
    (channels : List Channel) : Animation :=
  { duration := computeDuration samplers
    name := buildName srcName
    samplers := samplers
    channels := channels }

/-- `Animator::getAnimationDuration`. -/
def getAnimationDuration (anims : List Animation) (i : ℕ) : ℚ :=
  (anims.getD i default).duration

/-- One modelling step for `const char*`: a C string pointer is either null
(`none`) or a string.  `std::string::c_str()` always returns a valid
pointer, never null. -/
def cStr (s : String) : Option String := some s

/-- `Animator::getAnimationName`: `animations[i].name.c_str()`. -/
def getAnimationName (anims : List Animation) (i : ℕ) : Option String :=
  cStr (anims.getD i default).name

/-! ## Skinning (Animator::updateBoneMatrices)

`math::mat4f` is modelled as a rational 4 x 4 matrix; `operator*=` is
matrix multiplication on the right. -/

/-- filament `math::mat4f` over the rational model of float. -/
abbrev Mat4 := Matrix (Fin 4) (Fin 4) ℚ

/-- One `Skin` of `FFilamentAsset`: its joint entities, the parallel list
of inverse-bind matrices, and the renderable targets that receive the bone
matrices. -/
structure Skin where
  joints : List ℕ
  inverseBindMatrices : List Mat4
  targets : List ℕ

/-- Bone-matrix computation of `Animator::updateBoneMatrices` for one
skin: the `boneMatrices` vector is first filled with each joint's world
transform, then multiplied in place on the right by the inverse-bind
matrices (`boneMatrices[boneIndex++] *= m`). -/
def computeBoneMatrices (world : ℕ → Mat4) (skin : Skin) : List Mat4 :=
  (skin.joints.map world).zipWith (· * ·) skin.inverseBindMatrices

/-- `Animator::updateBoneMatrices`: for every skin, compute its bone-matrix
array and call `setBones(target, boneMatrices, count)` on every renderable
target of the skin; the result is the ordered list of `setBones` calls. -/
def updateBoneMatrices (world : ℕ → Mat4) (skins : List Skin) :
    List (ℕ × List Mat4) :=
  (skins.map (fun skin =>
    skin.targets.map (fun tgt => (tgt, computeBoneMatrices world skin)))).flatten

/-! ## Concrete inputs used by the witnesses and counterexamples -/

/-- Two-keyframe LINEAR translation sampler with keys 0 -> (0,0,0) and
1 -> (10,0,0). -/
def linTransSampler : Sampler :=
  { times := [(0, 0), (1, 1)], values := [0, 0, 0, 10, 0, 0],
    interpolation := .LINEAR }

/-- Translation channel for `linTransSampler`, targeting instance 7. -/
def linTransChannel : Channel :=
  { sourceData := linTransSampler, targetInstance := 7,
    transformType := .TRANSLATION }

/-- Unnamed animation with the single two-keyframe translation channel;
its built duration is 1. -/
def linTransAnim : Animation :=
  buildAnimation none [linTransSampler] [linTransChannel]

/-- Sampler identical to `linTransSampler` but declaring STEP
interpolation. -/
def stepSampler : Sampler :=
  { times := [(0, 0), (1, 1)], values := [0, 0, 0, 10, 0, 0],
    interpolation := .STEP }

/-- Translation channel for `stepSampler`, targeting instance 3. -/
def stepChannel : Channel :=
  { sourceData := stepSampler, targetInstance := 3,
    transformType := .TRANSLATION }

/-- Animation holding the STEP channel. -/
def stepAnim : Animation :=
  buildAnimation none [stepSampler] [stepChannel]

/-- Sampler with a single time key (fewer than 2 distinct times). -/
def oneKeySampler : Sampler :=
  { times := [(0, 0)], values := [1, 2, 3], interpolation := .LINEAR }

/-- Scale channel for `oneKeySampler`, targeting instance 5. -/
def oneKeyChannel : Channel :=
  { sourceData := oneKeySampler, targetInstance := 5,
    transformType := .SCALE }

/-- Animation whose only sampler has a single time key; its built duration
is 0. -/
def oneKeyAnim : Animation :=
  buildAnimation none [oneKeySampler] [oneKeyChannel]

/-- Concrete slerp stand-in used to instantiate the evaluator in
witnesses. -/
def slerpConst : Quat → Quat → ℚ → Quat := fun a _ _ => a

/-- Skin with one joint, an identity inverse-bind matrix, and one
renderable target. -/
def identitySkin : Skin :=
  { joints := [0], inverseBindMatrices := [1], targets := [3] }

/-- Helper: with the loader already destroyed (flag set) and `p > 0`
uploads still pending, a trace of exactly `p` completion events fires the
destruction exactly once, at its last event. -/
theorem runDeletes_flagged (tr : List CacheEvent) (p : Int)
    (hc : (tr.count CacheEvent.complete : Int) = p)
    (hd : tr.count CacheEvent.destroyLoader = 0)
    (hp : 0 < p) :
    runDeletes ⟨p, true⟩ tr = List.replicate (tr.length - 1) false ++ [true] := by
  induction tr generalizing p with
  | nil =>
      exfalso
      simp [List.count_nil] at hc
      omega
  | cons e rest ih =>
      cases e with
      | complete =>
          rw [List.count_cons_self] at hc
          rw [List.count_cons_of_ne (by simp)] at hd
          by_cases hone : p = 1
          · subst hone
            have hrest : rest.count CacheEvent.complete = 0 := by
              push_cast at hc; omega
            have hrestnil : rest = [] := by
              cases rest with
              | nil => rfl
              | cons e2 r2 =>
                  exfalso
                  cases e2 with
                  | complete => simp [List.count_cons_self] at hrest
                  | destroyLoader => simp [List.count_cons_self] at hd
            subst hrestnil
            simp [runDeletes, stepCache]
          · have hrest : (rest.count CacheEvent.complete : Int) = p - 1 := by
              push_cast at hc ⊢; omega
            have hrestpos : rest ≠ [] := by
              intro h; subst h; simp at hrest; omega
            have := ih (p - 1) hrest hd (by omega)
            simp only [runDeletes, stepCache]
            rw [if_neg (by simp; omega)]
            simp only [this]
            have hlen : 0 < rest.length := List.length_pos.mpr hrestpos
            cases hl : rest.length with
            | zero => omega
            | succ n =>
                simp [List.replicate_succ, hl]
      | destroyLoader =>
          exfalso
          simp [List.count_cons_self] at hd

/-- C1 core lemma: starting from a live cache with `p` pending uploads and
the loader not yet destroyed, any trace consisting of exactly `p` completion
events and exactly one loader-destruction event fires the destruction
exactly once, at the last event of the trace. -/
theorem runDeletes_live (tr : List CacheEvent) (p : Int)
    (hc : (tr.count CacheEvent.complete : Int) = p)
    (hd : tr.count CacheEvent.destroyLoader = 1)
    (hp : 0 ≤ p) :
    runDeletes ⟨p, false⟩ tr = List.replicate (tr.length - 1) false ++ [true] := by
  induction tr generalizing p with
  | nil => simp [List.count_nil] at hd
  | cons e rest ih =>
      cases e with
      | complete =>
          rw [List.count_cons_self] at hc
          rw [List.count_cons_of_ne (by simp)] at hd
          have hrest : (rest.count CacheEvent.complete : Int) = p - 1 := by
            push_cast at hc ⊢; omega
          have hrestpos : rest ≠ [] := by
            intro h; subst h; simp at hd
          have hp1 : 0 ≤ p - 1 := by
            have : (0 : Int) ≤ rest.count CacheEvent.complete := by positivity
            omega
          have := ih (p - 1) hrest hd hp1
          simp only [runDeletes, stepCache]
          rw [if_neg (by simp)]
          simp only [this]
          have hlen : 0 < rest.length := List.length_pos.mpr hrestpos
          cases hl : rest.length with
          | zero => omega
          | succ n => simp [List.replicate_succ, hl]
      | destroyLoader =>
          rw [List.count_cons_of_ne (by simp)] at hc
          rw [List.count_cons_self] at hd
          have hrestd : rest.count CacheEvent.destroyLoader = 0 := by omega
          by_cases hzero : p = 0
          · subst hzero
            have hrest : rest.count CacheEvent.complete = 0 := by omega
            have hrestnil : rest = [] := by
              cases rest with
              | nil => rfl
              | cons e2 r2 =>
                  exfalso
                  cases e2 with
                  | complete => simp [List.count_cons_self] at hrest
                  | destroyLoader => simp [List.count_cons_self] at hrestd
            subst hrestnil
            simp [runDeletes, stepCache]
          · have hppos : 0 < p := by omega
            have := runDeletes_flagged rest p hc hrestd hppos
            simp only [runDeletes, stepCache]
            rw [if_neg (by omega)]
            simp only [this]
            have hrestpos : rest ≠ [] := by
              intro h; subst h; simp at hc; omega
            have hlen : 0 < rest.length := List.length_pos.mpr hrestpos
            cases hl : rest.length with
            | zero => omega
            | succ n => simp [List.replicate_succ, hl]


/-- Helper: a malformed binding (no destination field set) stops the binding
loop right there: the actions of the well-formed bindings before it are
kept, the error is logged, the bindings after it are never processed, and
the loop reports failure. -/
theorem processBindings_malformed (pre : List BufferBinding) (b : BufferBinding)
    (post : List BufferBinding)
    (hpre : ∀ b2 ∈ pre, hasDest b2 = true) (hb : hasDest b = false) :
    processBindings (pre ++ b :: post)
      = ((processBindings pre).1 ++ [.logMalformed b.uri], false) := by
  induction pre with
  | nil =>
      simp only [hasDest, Bool.or_eq_false_iff] at hb
      obtain ⟨⟨⟨h1, h2⟩, h3⟩, h4⟩ := hb
      simp [processBindings, h1, h2, h3, h4]
  | cons bb rest ih =>
      have hrest : ∀ b2 ∈ rest, hasDest b2 = true :=
        fun b2 h => hpre b2 (List.mem_cons_of_mem _ h)
      have hstep := ih hrest
      have hd := hpre bb (List.mem_cons_self _ _)
      by_cases hvb : bb.vertexBuffer
      · simp [processBindings, hvb, hstep]
      · by_cases hib : bb.indexBuffer
        · simp [processBindings, hvb, hib, hstep]
        · by_cases hab : bb.animationBuffer
          · simp [processBindings, hvb, hib, hab, hstep]
          · by_cases hob : bb.orientationBuffer
            · simp [processBindings, hvb, hib, hab, hob, hstep]
            · exfalso; simp [hasDest, hvb, hib, hab, hob] at hd

/-- Unfolding equation of `counterCovers` on a cons cell. -/
theorem counterCovers_cons (sel : LoadAction → Bool) (c o : Int)
    (a : LoadAction) (rest : List LoadAction) :
    counterCovers sel c o (a :: rest)
      = (if isInc a then counterCovers sel (c + 1) o rest
         else if sel a then decide (o + 1 ≤ c) && counterCovers sel c (o + 1) rest
         else counterCovers sel c o rest) := rfl

/-- Helper: the tangent-quaternion uploads are covered trivially by the
binding-dispatch counter check, since none of them is a binding dispatch. -/
theorem counterCovers_tangents (n : Nat) (c o : Int) :
    counterCovers isBindingDispatch c o
      (List.replicate n LoadAction.dispatchTangentUpload) = true := by
  induction n generalizing c o with
  | zero => rfl
  | succ k ih =>
      simpa [List.replicate_succ, counterCovers_cons, isInc, isBindingDispatch]
        using ih c o

/-- Helper: appending the tangent uploads to a trace that satisfies the
counter-coverage check preserves the check. -/
theorem counterCovers_append_tangents (l : List LoadAction) (c o : Int) (n : Nat)
    (h : counterCovers isBindingDispatch c o l = true) :
    counterCovers isBindingDispatch c o
      (l ++ List.replicate n LoadAction.dispatchTangentUpload) = true := by
  induction l generalizing c o with
  | nil => simpa using counterCovers_tangents n c o
  | cons a rest ih =>
      rw [List.cons_append]
      cases a with
      | incPending =>
          simp only [counterCovers_cons, isInc, if_true] at h ⊢
          exact ih (c + 1) o h
      | dispatchVertexUpload u =>
          simp [counterCovers_cons, isInc, isBindingDispatch] at h ⊢
          exact ⟨h.1, ih c (o + 1) h.2⟩
      | dispatchIndexUpload u =>
          simp [counterCovers_cons, isInc, isBindingDispatch] at h ⊢
          exact ⟨h.1, ih c (o + 1) h.2⟩
      | memcpyAnimation u =>
          simp only [counterCovers_cons, isInc, isBindingDispatch,
            Bool.false_eq_true, if_false] at h ⊢
          exact ih c o h
      | memcpyOrientation u =>
          simp only [counterCovers_cons, isInc, isBindingDispatch,
            Bool.false_eq_true, if_false] at h ⊢
          exact ih c o h
      | dispatchTangentUpload =>
          simp only [counterCovers_cons, isInc, isBindingDispatch,
            Bool.false_eq_true, if_false] at h ⊢
          exact ih c o h
      | logMalformed u =>
          simp only [counterCovers_cons, isInc, isBindingDispatch,
            Bool.false_eq_true, if_false] at h ⊢
          exact ih c o h

/-- Helper: the binding loop increments the pending-upload counter strictly
before each vertex/index dispatch, so its trace passes the coverage check
from any state in which the counter already covers the outstanding count. -/
theorem counterCovers_processBindings (bs : List BufferBinding) (c o : Int)
    (h : o ≤ c) :
    counterCovers isBindingDispatch c o (processBindings bs).1 = true := by
  induction bs generalizing c o with
  | nil => rfl
  | cons bb rest ih =>
      by_cases hvb : bb.vertexBuffer
      · simp only [processBindings, hvb, if_true, counterCovers_cons, isInc,
          isBindingDispatch, Bool.false_eq_true, if_false, Bool.and_eq_true,
          decide_eq_true_eq]
        exact ⟨by omega, ih (c + 1) (o + 1) (by omega)⟩
      · by_cases hib : bb.indexBuffer
        · simp only [processBindings, hvb, hib, if_true, Bool.false_eq_true,
            if_false, counterCovers_cons, isInc, isBindingDispatch,
            Bool.and_eq_true, decide_eq_true_eq]
          exact ⟨by omega, ih (c + 1) (o + 1) (by omega)⟩
        · by_cases hab : bb.animationBuffer
          · simp only [processBindings, hvb, hib, hab, if_true, Bool.false_eq_true,
              if_false, counterCovers_cons, isInc, isBindingDispatch]
            exact ih c o h
          · by_cases hob : bb.orientationBuffer
            · simp only [processBindings, hvb, hib, hab, hob, if_true,
                Bool.false_eq_true, if_false, counterCovers_cons, isInc,
                isBindingDispatch]
              exact ih c o h
            · simp only [processBindings, hvb, hib, hab, hob, Bool.false_eq_true,
                if_false, counterCovers_cons, isInc, isBindingDispatch]
              rfl

/-! ### Arithmetic facts about the C `fmod` model -/

/-- C `fmod` stays strictly below a positive divisor. -/
theorem fmodQ_lt (x y : ℚ) (hy : 0 < y) : fmodQ x y < y := by
  unfold fmodQ truncQ
  have hxy : x / y * y = x := div_mul_cancel₀ x (ne_of_gt hy)
  by_cases hx : 0 ≤ x / y
  · rw [if_pos hx]
    have h1 : x / y - (⌊x / y⌋ : ℚ) < 1 := by
      have := Int.fract_lt_one (x / y)
      rwa [Int.fract] at this
    nlinarith
  · rw [if_neg hx]
    have h1 : x / y ≤ (⌈x / y⌉ : ℚ) := Int.le_ceil (x / y)
    nlinarith

/-- C `fmod` of a nonnegative dividend by a positive divisor is
nonnegative. -/
theorem fmodQ_nonneg (x y : ℚ) (hx : 0 ≤ x) (hy : 0 < y) : 0 ≤ fmodQ x y := by
  unfold fmodQ truncQ
  have hxy : x / y * y = x := div_mul_cancel₀ x (ne_of_gt hy)
  have hq : 0 ≤ x / y := div_nonneg hx (le_of_lt hy)
  rw [if_pos hq]
  have h1 : (⌊x / y⌋ : ℚ) ≤ x / y := Int.floor_le (x / y)
  nlinarith

/-! ### Facts about the `lower_bound` model -/

/-- The lower-bound index never exceeds the list length. -/
theorem lowerBoundIdx_le_length (times : List (ℚ × ℕ)) (w : ℚ) :
    lowerBoundIdx times w ≤ times.length := by
  induction times with
  | nil => simp [lowerBoundIdx]
  | cons p rest ih =>
      simp only [lowerBoundIdx, List.length_cons]
      split
      · omega
      · omega

/-- Every key strictly before the lower-bound position is below `w`. -/
theorem key_lt_of_lt_lowerBoundIdx (times : List (ℚ × ℕ)) (w : ℚ) (j : ℕ)
    (d : ℚ × ℕ) (hj : j < lowerBoundIdx times w) : (times.getD j d).1 < w := by
  induction times generalizing j with
  | nil => simp [lowerBoundIdx] at hj
  | cons p rest ih =>
      simp only [lowerBoundIdx] at hj
      by_cases hw : w ≤ p.1
      · rw [if_pos hw] at hj; omega
      · rw [if_neg hw] at hj
        cases j with
        | zero => simpa using lt_of_not_le hw
        | succ k =>
            simp only [List.getD_cons_succ]
            exact ih k (by omega)

/-- When the lower bound is not `end()`, its key is at or above `w`. -/
theorem le_key_at_lowerBoundIdx (times : List (ℚ × ℕ)) (w : ℚ) (d : ℚ × ℕ)
    (h : lowerBoundIdx times w < times.length) :
    w ≤ (times.getD (lowerBoundIdx times w) d).1 := by
  induction times with
  | nil => simp [lowerBoundIdx] at h
  | cons p rest ih =>
      simp only [lowerBoundIdx] at h ⊢
      by_cases hw : w ≤ p.1
      · rw [if_pos hw]
        simpa using hw
      · rw [if_neg hw] at h ⊢
        simp only [List.getD_cons_succ]
        exact ih (by simpa using h)

/-- A position whose preceding keys are all below `w` bounds the
lower-bound index from below. -/
theorem le_lowerBoundIdx_of_keys_lt (times : List (ℚ × ℕ)) (w : ℚ) (d : ℚ × ℕ)
    (i : ℕ) (hi : i ≤ times.length)
    (h : ∀ j, j < i → (times.getD j d).1 < w) : i ≤ lowerBoundIdx times w := by
  induction times generalizing i with
  | nil =>
      simp only [List.length_nil, Nat.le_zero] at hi
      simp [hi, lowerBoundIdx]
  | cons p rest ih =>
      cases i with
      | zero => exact Nat.zero_le _
      | succ k =>
          simp only [lowerBoundIdx]
          have hp : p.1 < w := by simpa using h 0 (Nat.succ_pos k)
          rw [if_neg (not_le.mpr hp)]
          have hk : k ≤ rest.length := by simpa using hi
          have := ih k hk (fun j hj => by simpa using h (j + 1) (by omega))
          omega

/-- A position whose key is at or above `w` bounds the lower-bound index
from above. -/
theorem lowerBoundIdx_le_of_le (times : List (ℚ × ℕ)) (w : ℚ) (d : ℚ × ℕ)
    (i : ℕ) (hi : i < times.length)
    (h : w ≤ (times.getD i d).1) : lowerBoundIdx times w ≤ i := by
  induction times generalizing i with
  | nil => simp at hi
  | cons p rest ih =>
      cases i with
      | zero =>
          simp only [List.getD_cons_zero] at h
          simp [lowerBoundIdx, h]
      | succ k =>
          simp only [lowerBoundIdx]
          by_cases hw : w ≤ p.1
          · rw [if_pos hw]; omega
          · rw [if_neg hw]
            have := ih k (by simpa using hi) (by simpa using h)
            omega

/-- Strictly sorted keys are monotone under positional access. -/
theorem key_lt_key_of_sorted (times : List (ℚ × ℕ))
    (hs : times.Pairwise (fun p q => p.1 < q.1)) (i j : ℕ) (d : ℚ × ℕ)
    (hij : i < j) (hj : j < times.length) :
    (times.getD i d).1 < (times.getD j d).1 := by
  rw [List.getD_eq_getElem times d (lt_trans hij hj), List.getD_eq_getElem times d hj]
  exact List.pairwise_iff_getElem.mp hs i j (lt_trans hij hj) hj hij

/-- Positional form of `headD` on a nonempty list. -/
theorem headD_eq_getD (l : List (ℚ × ℕ)) (d : ℚ × ℕ) :
    l.headD d = l.getD 0 d := by
  cases l with
  | nil => rfl
  | cons a r => rfl

/-- Positional form of `getLastD`. -/
theorem getLastD_eq_getD (l : List (ℚ × ℕ)) (d : ℚ × ℕ) :
    l.getLastD d = l.getD (l.length - 1) d := by
  rw [List.getLastD_eq_getLast?, List.getLast?_eq_getElem?]
  rw [List.getD_eq_getD_get?, List.get?_eq_getElem?]

/-! ### Characterization of the keyframe selection -/

/-- Past-the-last-key case: when every key is below the wrapped time the
code takes `prev` = last key, `next` = first key. -/
theorem selectPrevNext_end (times : List (ℚ × ℕ)) (w : ℚ)
    (h : ∀ p ∈ times, p.1 < w) :
    selectPrevNext times w = (times.getLastD (0, 0), times.headD (0, 0)) := by
  have hle := lowerBoundIdx_le_length times w
  have hge : times.length ≤ lowerBoundIdx times w := by
    apply le_lowerBoundIdx_of_keys_lt times w (0, 0) times.length le_rfl
    intro j hj
    rw [List.getD_eq_getElem times (0, 0) hj]
    exact h _ (List.getElem_mem hj)
  unfold selectPrevNext
  rw [if_pos (le_antisymm hle hge)]

/-- At-or-before-the-first-key case: the lower bound is `begin()` and the
code takes `prev = next` = first key. -/
theorem selectPrevNext_begin (times : List (ℚ × ℕ)) (w : ℚ)
    (hne : times ≠ []) (h : w ≤ (times.headD (0, 0)).1) :
    selectPrevNext times w = (times.headD (0, 0), times.headD (0, 0)) := by
  cases times with
  | nil => exact absurd rfl hne
  | cons p rest =>
      have h0 : lowerBoundIdx (p :: rest) w = 0 := by
        simp only [lowerBoundIdx]
        rw [if_pos (by simpa using h)]
      unfold selectPrevNext
      rw [h0]
      rw [if_neg (by simp), if_pos rfl]

/-- Interior case: when position `i` is the first whose key reaches `w`,
the code takes `next` = key `i` and `prev` = key `i - 1`. -/
theorem selectPrevNext_middle (times : List (ℚ × ℕ)) (w : ℚ) (i : ℕ)
    (hs : times.Pairwise (fun p q => p.1 < q.1))
    (h0 : 0 < i) (hi : i < times.length)
    (h1 : (times.getD (i - 1) (0, 0)).1 < w)
    (h2 : w ≤ (times.getD i (0, 0)).1) :
    selectPrevNext times w = (times.getD (i - 1) (0, 0), times.getD i (0, 0)) := by
  have hup : lowerBoundIdx times w ≤ i := lowerBoundIdx_le_of_le times w (0, 0) i hi h2
  have hdown : i ≤ lowerBoundIdx times w := by
    apply le_lowerBoundIdx_of_keys_lt times w (0, 0) i (le_of_lt hi)
    intro j hj
    rcases Nat.lt_or_ge j (i - 1) with hj2 | hj2
    · exact lt_trans (key_lt_key_of_sorted times hs j (i - 1) (0, 0) hj2
        (by omega)) h1
    · have : j = i - 1 := by omega
      rw [this]; exact h1
  have heq : lowerBoundIdx times w = i := le_antisymm hup hdown
  unfold selectPrevNext
  rw [heq, if_neg (by omega), if_neg (by omega)]

/-- Bounds on the interpolant actually computed by `applyAnimation`: with
strictly sorted keys (at least two of them) all lying in `[0, D]` and a
wrapped time below `D`, the computed `t` lies in `[0, 1]`. -/
theorem interpolant_bounds (times : List (ℚ × ℕ)) (D w : ℚ)
    (hs : times.Pairwise (fun p q => p.1 < q.1))
    (hlen : 2 ≤ times.length)
    (hkeys : ∀ p ∈ times, 0 ≤ p.1 ∧ p.1 ≤ D)
    (hw : w < D) :
    0 ≤ interpolant D (selectPrevNext times w).1.1 (selectPrevNext times w).2.1 w
      ∧ interpolant D (selectPrevNext times w).1.1 (selectPrevNext times w).2.1 w ≤ 1 := by
  have hne : times ≠ [] := by
    intro h; rw [h] at hlen; simp at hlen
  have hmem : ∀ j, j < times.length → 0 ≤ (times.getD j (0, 0)).1
      ∧ (times.getD j (0, 0)).1 ≤ D := by
    intro j hj
    rw [List.getD_eq_getElem times (0, 0) hj]
    exact hkeys _ (List.getElem_mem hj)
  have hle := lowerBoundIdx_le_length times w
  rcases Nat.lt_or_ge (lowerBoundIdx times w) times.length with hilt | hige
  · rcases Nat.eq_zero_or_pos (lowerBoundIdx times w) with hiz | hipos
    · have hhead : w ≤ (times.headD (0, 0)).1 := by
        rw [headD_eq_getD]
        have := le_key_at_lowerBoundIdx times w (0, 0) hilt
        rwa [hiz] at this
      rw [selectPrevNext_begin times w hne hhead]
      simp [interpolant, effInterval]
    · have h1 : (times.getD (lowerBoundIdx times w - 1) (0, 0)).1 < w :=
        key_lt_of_lt_lowerBoundIdx times w _ (0, 0) (by omega)
      have h2 : w ≤ (times.getD (lowerBoundIdx times w) (0, 0)).1 :=
        le_key_at_lowerBoundIdx times w (0, 0) hilt
      rw [selectPrevNext_middle times w (lowerBoundIdx times w) hs hipos hilt h1 h2]
      have hadj : (times.getD (lowerBoundIdx times w - 1) (0, 0)).1
          < (times.getD (lowerBoundIdx times w) (0, 0)).1 :=
        key_lt_key_of_sorted times hs _ _ (0, 0) (by omega) hilt
      have heff : effInterval D (times.getD (lowerBoundIdx times w - 1) (0, 0)).1
            (times.getD (lowerBoundIdx times w) (0, 0)).1
          = (times.getD (lowerBoundIdx times w) (0, 0)).1
            - (times.getD (lowerBoundIdx times w - 1) (0, 0)).1 := by
        unfold effInterval
        rw [if_neg (by simp only [not_lt]; linarith)]
      simp only [interpolant, heff]
      rw [if_neg (by intro hcon; linarith)]
      constructor
      · exact div_nonneg (by linarith) (by linarith)
      · rw [div_le_one (by linarith)]
        linarith
  · have hiend : lowerBoundIdx times w = times.length := le_antisymm hle hige
    have hall : ∀ p ∈ times, p.1 < w := by
      intro p hp
      rcases List.mem_iff_getElem.mp hp with ⟨j, hj, hjp⟩
      have := key_lt_of_lt_lowerBoundIdx times w j (0, 0) (by omega)
      rwa [List.getD_eq_getElem times (0, 0) hj, hjp] at this
    rw [selectPrevNext_end times w hall]
    rw [getLastD_eq_getD, headD_eq_getD]
    have hlast := hmem (times.length - 1) (by omega)
    have hzero := hmem 0 (by omega)
    have hlastw : (times.getD (times.length - 1) (0, 0)).1 < w := by
      have hj : times.length - 1 < times.length := by omega
      rw [List.getD_eq_getElem times (0, 0) hj]
      exact hall _ (List.getElem_mem hj)
    have hfl : (times.getD 0 (0, 0)).1 < (times.getD (times.length - 1) (0, 0)).1 :=
      key_lt_key_of_sorted times hs 0 (times.length - 1) (0, 0) (by omega) (by omega)
    have heff : effInterval D (times.getD (times.length - 1) (0, 0)).1
          (times.getD 0 (0, 0)).1
        = (times.getD 0 (0, 0)).1 - (times.getD (times.length - 1) (0, 0)).1 + D := by
      unfold effInterval
      rw [if_pos (by linarith)]
    simp only [interpolant, heff]
    by_cases hz : (times.getD 0 (0, 0)).1 - (times.getD (times.length - 1) (0, 0)).1 + D = 0
    · rw [if_pos hz]
      exact ⟨le_refl 0, zero_le_one⟩
    · rw [if_neg hz]
      have hpos : 0 < (times.getD 0 (0, 0)).1
          - (times.getD (times.length - 1) (0, 0)).1 + D := by
        rcases lt_or_eq_of_le (by linarith :
          (0 : ℚ) ≤ (times.getD 0 (0, 0)).1
            - (times.getD (times.length - 1) (0, 0)).1 + D) with h | h
        · exact h
        · exact absurd h.symm hz
      constructor
      · exact div_nonneg (by linarith) (by linarith)
      · rw [div_le_one hpos]
        linarith

/-! ### Facts about the duration accumulation -/

/-- The duration accumulator never decreases. -/
theorem le_foldl_durStep (l : List Sampler) (d : ℚ) : d ≤ l.foldl durStep d := by
  induction l generalizing d with
  | nil => exact le_refl d
  | cons s rest ih =>
      refine le_trans ?_ (ih (durStep d s))
      unfold durStep
      split
      · exact le_max_left d (maxTimeKey s)
      · exact le_refl d

/-- Every qualifying sampler (more than one distinct time key) bounds the
accumulated duration from below by its largest time key. -/
theorem maxTimeKey_le_foldl_durStep (l : List Sampler) (d : ℚ) (s : Sampler)
    (hs : s ∈ l) (hq : 1 < s.times.length) :
    maxTimeKey s ≤ l.foldl durStep d := by
  induction l generalizing d with
  | nil => simp at hs
  | cons a rest ih =>
      rcases List.mem_cons.mp hs with h | h
      · subst h
        refine le_trans ?_ (le_foldl_durStep rest (durStep d s))
        unfold durStep
        rw [if_pos hq]
        exact le_max_right d (maxTimeKey s)
      · exact ih (durStep d a) h

/-- The accumulated duration is either the initial value or the largest
time key of some qualifying sampler. -/
theorem foldl_durStep_cases (l : List Sampler) (d : ℚ) :
    l.foldl durStep d = d
      ∨ ∃ s ∈ l, 1 < s.times.length ∧ l.foldl durStep d = maxTimeKey s := by
  induction l generalizing d with
  | nil => exact Or.inl rfl
  | cons a rest ih =>
      rcases ih (durStep d a) with h | ⟨s, hs, hq, hv⟩
      · rw [List.foldl_cons, h]
        unfold durStep
        split
        · rcases max_choice d (maxTimeKey a) with hm | hm
          · exact Or.inl hm
          · rename_i hqa
            exact Or.inr ⟨a, List.mem_cons_self a rest, hqa, hm⟩
        · exact Or.inl rfl
      · exact Or.inr ⟨s, List.mem_cons_of_mem a hs, hq, by rw [List.foldl_cons, hv]⟩

/-- When no sampler qualifies, the accumulator is untouched. -/
theorem foldl_durStep_skip (l : List Sampler) (d : ℚ)
    (h : ∀ s ∈ l, ¬ 1 < s.times.length) : l.foldl durStep d = d := by
  induction l generalizing d with
  | nil => rfl
  | cons a rest ih =>
      rw [List.foldl_cons]
      have ha := h a (List.mem_cons_self a rest)
      rw [show durStep d a = d by unfold durStep; rw [if_neg ha]]
      exact ih d (fun s hs => h s (List.mem_cons_of_mem a hs))

/-- With strictly sorted keys, the last key is the largest. -/
theorem key_le_maxTimeKey (s : Sampler)
    (hs : s.times.Pairwise (fun p q => p.1 < q.1)) (p : ℚ × ℕ)
    (hp : p ∈ s.times) : p.1 ≤ maxTimeKey s := by
  rcases List.mem_iff_getElem.mp hp with ⟨j, hj, hjp⟩
  unfold maxTimeKey
  rw [getLastD_eq_getD]
  rcases Nat.lt_or_ge j (s.times.length - 1) with hlt | hge
  · have := key_lt_key_of_sorted s.times hs j (s.times.length - 1) (0, 0) hlt
      (by omega)
    rw [List.getD_eq_getElem s.times (0, 0) hj, hjp] at this
    exact le_of_lt this
  · have hj2 : j = s.times.length - 1 := by omega
    subst hj2
    rw [List.getD_eq_getElem s.times (0, 0) hj, hjp]

/-- A sampler of a built animation with zero duration cannot have two
distinct nonnegative strictly sorted time keys. -/
theorem times_short_of_duration_zero (samplers : List Sampler) (s : Sampler)
    (hmem : s ∈ samplers)
    (hsort : s.times.Pairwise (fun p q => p.1 < q.1))
    (hnn : ∀ p ∈ s.times, 0 ≤ p.1)
    (hdur : computeDuration samplers = 0) : s.times.length < 2 := by
  by_contra hlen
  have hq : 1 < s.times.length := by omega
  have hbound : maxTimeKey s ≤ 0 := by
    have := maxTimeKey_le_foldl_durStep samplers 0 s hmem hq
    unfold computeDuration at hdur
    rw [hdur] at this
    exact this
  have h01 : (s.times.getD 0 (0, 0)).1 < (s.times.getD (s.times.length - 1) (0, 0)).1 :=
    key_lt_key_of_sorted s.times hsort 0 (s.times.length - 1) (0, 0) (by omega)
      (by omega)
  have h0 : 0 ≤ (s.times.getD 0 (0, 0)).1 := by
    have hj : 0 < s.times.length := by omega
    rw [List.getD_eq_getElem s.times (0, 0) hj]
    exact hnn _ (List.getElem_mem hj)
  have hlast : maxTimeKey s = (s.times.getD (s.times.length - 1) (0, 0)).1 := by
    unfold maxTimeKey
    rw [getLastD_eq_getD]
  linarith [hbound, h01, h0, hlast.ge, hlast.le]

/-! ### Branch facts about the channel evaluator -/

/-- Channels with fewer than two distinct time keys are skipped. -/
theorem evalChannel_skip (slerpFn : Quat → Quat → ℚ → Quat) (D w : ℚ)
    (ch : Channel) (h : ch.sourceData.times.length < 2) :
    evalChannel slerpFn D ch w = none := by
  unfold evalChannel
  rw [if_pos h]

/-- Translation branch of the evaluator. -/
theorem evalChannel_translation (slerpFn : Quat → Quat → ℚ → Quat) (D w : ℚ)
    (ch : Channel) (hlen : ¬ ch.sourceData.times.length < 2)
    (ht : ch.transformType = .TRANSLATION) :
    evalChannel slerpFn D ch w
      = some (ch.targetInstance,
          .translate (lerpVec3
            (interpolant D (selectPrevNext ch.sourceData.times w).1.1
              (selectPrevNext ch.sourceData.times w).2.1 w)
            (vec3At ch.sourceData.values (selectPrevNext ch.sourceData.times w).1.2)
            (vec3At ch.sourceData.values (selectPrevNext ch.sourceData.times w).2.2))) := by
  unfold evalChannel
  rw [if_neg hlen, ht]

/-- Scale branch of the evaluator. -/
theorem evalChannel_scale (slerpFn : Quat → Quat → ℚ → Quat) (D w : ℚ)
    (ch : Channel) (hlen : ¬ ch.sourceData.times.length < 2)
    (ht : ch.transformType = .SCALE) :
    evalChannel slerpFn D ch w
      = some (ch.targetInstance,
          .scale (lerpVec3
            (interpolant D (selectPrevNext ch.sourceData.times w).1.1
              (selectPrevNext ch.sourceData.times w).2.1 w)
            (vec3At ch.sourceData.values (selectPrevNext ch.sourceData.times w).1.2)
            (vec3At ch.sourceData.values (selectPrevNext ch.sourceData.times w).2.2))) := by
  unfold evalChannel
  rw [if_neg hlen, ht]

/-- Rotation branch of the evaluator: the slerp kernel applied to the two
selected quaternions at the computed interpolant. -/
theorem evalChannel_rotation (slerpFn : Quat → Quat → ℚ → Quat) (D w : ℚ)
    (ch : Channel) (hlen : ¬ ch.sourceData.times.length < 2)
    (ht : ch.transformType = .ROTATION) :
    evalChannel slerpFn D ch w
      = some (ch.targetInstance,
          .rotate (slerpFn
            (quatAt ch.sourceData.values (selectPrevNext ch.sourceData.times w).1.2)
            (quatAt ch.sourceData.values (selectPrevNext ch.sourceData.times w).2.2)
            (interpolant D (selectPrevNext ch.sourceData.times w).1.1
              (selectPrevNext ch.sourceData.times w).2.1 w))) := by
  unfold evalChannel
  rw [if_neg hlen, ht]

/-! ### Facts about the skinning computation -/

/-- Pointwise form of the bone-matrix computation. -/
theorem computeBoneMatrices_eq_zipWith (world : ℕ → Mat4) (skin : Skin) :
    computeBoneMatrices world skin
      = List.zipWith (fun j m => world j * m) skin.joints
          skin.inverseBindMatrices := by
  unfold computeBoneMatrices
  rw [List.zipWith_map_left]

/-- Identity case of the bone-matrix computation. -/
theorem zipWith_boneMatrices_identity (world : ℕ → Mat4) (joints : List ℕ)
    (ibm : List Mat4) (hw : ∀ j, world j = 1) (hm : ∀ m ∈ ibm, m = 1)
    (hlen : joints.length = ibm.length) :
    List.zipWith (fun j m => world j * m) joints ibm
      = List.replicate joints.length (1 : Mat4) := by
  induction joints generalizing ibm with
  | nil => simp
  | cons j rest ih =>
      cases ibm with
      | nil => simp at hlen
      | cons m mrest =>
          rw [List.zipWith_cons_cons]
          rw [hw j, hm m (List.mem_cons_self m mrest), one_mul]
          rw [List.length_cons, List.replicate_succ]
          rw [ih mrest (fun m2 hm2 => hm m2 (List.mem_cons_of_mem m hm2))
            (by simpa using hlen)]

end Gltfio

/-- C1: the BlobCache is destroyed exactly once, at the later of the
pending-upload count reaching zero and the loader's destruction.  For every
interleaving of the `p` upload-completion callbacks with the single
loader-destruction event, started from a cache with `p` pending uploads and
the loader alive, the `delete` fires on the last event of the trace and on
no earlier event — never zero times, never twice.  In particular destroying
the loader while uploads remain pending only sets the flag, the callback
that decrements the count to zero with the flag set frees the cache, and
destroying the loader with zero pending uploads frees it at that moment. -/
theorem C1_blobcache_destroyed_exactly_once
    (tr : List Gltfio.CacheEvent) (p : Int)
    (hc : (tr.count Gltfio.CacheEvent.complete : Int) = p)
    (hd : tr.count Gltfio.CacheEvent.destroyLoader = 1)
    (hp : 0 ≤ p) :
    Gltfio.runDeletes ⟨p, false⟩ tr
      = List.replicate (tr.length - 1) false ++ [true] :=
  Gltfio.runDeletes_live tr p hc hd hp

/-- Witness for C1: two pending uploads; the loader is destroyed between the
two completions; destruction fires exactly at the final completion. -/
theorem C1_witness :
    Gltfio.runDeletes ⟨2, false⟩
        [Gltfio.CacheEvent.complete, Gltfio.CacheEvent.destroyLoader,
         Gltfio.CacheEvent.complete]
      = List.replicate 2 false ++ [true] :=
  C1_blobcache_destroyed_exactly_once
    [Gltfio.CacheEvent.complete, Gltfio.CacheEvent.destroyLoader,
     Gltfio.CacheEvent.complete] 2 (by decide) (by decide) (by decide)

/-- Counterexample to C2: a binding with two destination fields set (both
`vertexBuffer` and `indexBuffer` non-null) does not make `loadResources`
fail.  The binding loop tests the fields in order and takes the first set
one, so `loadResources` on this asset succeeds (returns `true`), against
the claim that it returns failure. -/
theorem C2_counterexample :
    Gltfio.twoDestBinding.vertexBuffer = true
      ∧ Gltfio.twoDestBinding.indexBuffer = true
      ∧ (Gltfio.loadResources Gltfio.twoDestAsset).2 = true := by decide

/-- C2 (amended): a binding with no destination field set makes
`loadResources` return failure without crashing, fail-fast: the error is
logged, the bindings after the malformed one are not processed, and the
actions already performed for the bindings before it are kept (not rolled
back).  A binding with two or more destination fields set is not an error:
it is dispatched according to the first set field in the order vertex,
index, animation, orientation. -/
theorem C2_malformed_binding_fail_fast (a : Gltfio.AssetModel)
    (pre : List Gltfio.BufferBinding) (b : Gltfio.BufferBinding)
    (post : List Gltfio.BufferBinding)
    (hok : a.buffersOk = true)
    (hbind : a.bindings = pre ++ b :: post)
    (hpre : ∀ b2 ∈ pre, Gltfio.hasDest b2 = true)
    (hb : Gltfio.hasDest b = false) :
    Gltfio.loadResources a
      = ((Gltfio.processBindings pre).1
           ++ [Gltfio.LoadAction.logMalformed b.uri], false) := by
  have hp := Gltfio.processBindings_malformed pre b post hpre hb
  simp [Gltfio.loadResources, hok, hbind, hp]

/-- Witness for C2 (amended): one well-formed animation binding followed by
a binding with no destination set; `loadResources` performs the animation
memcpy, logs the malformed binding and fails. -/
theorem C2_witness :
    Gltfio.loadResources Gltfio.malformedAsset
      = ((Gltfio.processBindings [Gltfio.animBinding]).1
           ++ [Gltfio.LoadAction.logMalformed Gltfio.noDestBinding.uri], false) :=
  C2_malformed_binding_fail_fast Gltfio.malformedAsset
    [Gltfio.animBinding] Gltfio.noDestBinding [] (by decide) (by decide)
    (by decide) (by decide)

/-- Counterexample to C7: the surface-orientation quaternion uploads of
`computeTangents` do not use the pending-upload counter: on an asset whose
only binding is a synchronous orientation memcpy and whose mesh has one
primitive with normals, the trace of `loadResources` contains an
asynchronous tangent-quaternion dispatch with no preceding increment of the
counter, so the counter (zero) is below the outstanding upload count at
that dispatch and the coverage check fails. -/
theorem C7_counterexample :
    (Gltfio.loadResources Gltfio.tangentAsset).1.any Gltfio.isAsyncDispatch = true
      ∧ Gltfio.counterCovers Gltfio.isAsyncDispatch 0 0
          (Gltfio.loadResources Gltfio.tangentAsset).1 = false := by decide

/-- C7 (amended): for the asynchronous uploads dispatched by the binding
loop of `loadResources` (vertex- and index-buffer uploads, whose completion
callback is `BlobCache::onLoadedResource`), the pending-upload counter is
incremented strictly before each dispatch and only the completion callback
decrements it, so the counter never transiently drops below the number of
outstanding binding uploads.  The tangent-quaternion uploads of
`computeTangents` are outside this discipline: their completion callback is
plain `free` and they never touch the counter. -/
theorem C7_counter_incremented_before_dispatch (a : Gltfio.AssetModel) :
    Gltfio.counterCovers Gltfio.isBindingDispatch 0 0
        (Gltfio.loadResources a).1 = true
      ∧ (Gltfio.computeTangentsTrace a).all
          (fun act => !Gltfio.isInc act) = true := by
  constructor
  · by_cases hbuf : a.buffersOk
    · by_cases hpb : (Gltfio.processBindings a.bindings).2
      · by_cases hor : 0 < a.orientationBufferSize
        · simp only [Gltfio.loadResources, hbuf, hpb, hor, not_true, if_false,
            if_true, Gltfio.computeTangentsTrace]
          exact Gltfio.counterCovers_append_tangents _ 0 0 _
            (Gltfio.counterCovers_processBindings a.bindings 0 0 le_rfl)
        · simp only [Gltfio.loadResources, hbuf, hpb, hor, not_true, if_false,
            if_true, List.append_nil]
          exact Gltfio.counterCovers_processBindings a.bindings 0 0 le_rfl
      · simp only [Gltfio.loadResources, hbuf, hpb, not_true, not_false_iff,
          if_false, if_true]
        exact Gltfio.counterCovers_processBindings a.bindings 0 0 le_rfl
    · simp only [Gltfio.loadResources, hbuf, not_false_iff, if_true]
      rfl
  · simp [Gltfio.computeTangentsTrace, List.all_eq_true, Gltfio.isInc]

/-- Counterexample to C3: `applyAnimation` does not wrap every finite time
into `[0, D)`.  C `fmod` keeps the sign of the dividend, so at time `-1/2`
with duration `1` the wrapped time is `-1/2`, which is not in `[0, 1)`. -/
theorem C3_counterexample :
    Gltfio.fmodQ (-(1 : ℚ)/2) 1 = -(1/2)
      ∧ ¬ (0 ≤ Gltfio.fmodQ (-(1 : ℚ)/2) 1) := by
  with_unfolding_all decide

/-- C3 (amended): `applyAnimation` wraps the requested time by C `fmod`
into `(-D, D)` — into `[0, D)` exactly when the requested time is
nonnegative — and then selects the keyframes by the lower bound of the
wrapped time `w`: when every key is below `w`, `prev` is the last key and
`next` the first; when `w` is at or below the first key, `prev = next` =
first key; when position `i > 0` holds the first key `≥ w`, `next` is key
`i` and `prev` key `i - 1`.  The interpolant it computes from the selected
pair — the key interval, plus `D` when negative, with `t = 0` on a zero
interval and `(w - prev.time) / interval` otherwise — always lies in
`[0, 1]` for strictly sorted keys inside `[0, D]`. -/
theorem C3_keyframe_selection_and_interpolant
    (times : List (ℚ × ℕ)) (D t : ℚ)
    (hs : times.Pairwise (fun p q => p.1 < q.1))
    (hlen : 2 ≤ times.length)
    (hkeys : ∀ p ∈ times, 0 ≤ p.1 ∧ p.1 ≤ D)
    (hD : 0 < D) :
    (Gltfio.fmodQ t D < D ∧ (0 ≤ t → 0 ≤ Gltfio.fmodQ t D))
    ∧ ((∀ p ∈ times, p.1 < Gltfio.fmodQ t D) →
        Gltfio.selectPrevNext times (Gltfio.fmodQ t D)
          = (times.getLastD (0, 0), times.headD (0, 0)))
    ∧ (Gltfio.fmodQ t D ≤ (times.headD (0, 0)).1 →
        Gltfio.selectPrevNext times (Gltfio.fmodQ t D)
          = (times.headD (0, 0), times.headD (0, 0)))
    ∧ (∀ i, 0 < i → i < times.length →
        (times.getD (i - 1) (0, 0)).1 < Gltfio.fmodQ t D →
        Gltfio.fmodQ t D ≤ (times.getD i (0, 0)).1 →
        Gltfio.selectPrevNext times (Gltfio.fmodQ t D)
          = (times.getD (i - 1) (0, 0), times.getD i (0, 0)))
    ∧ (0 ≤ Gltfio.interpolant D
          (Gltfio.selectPrevNext times (Gltfio.fmodQ t D)).1.1
          (Gltfio.selectPrevNext times (Gltfio.fmodQ t D)).2.1 (Gltfio.fmodQ t D)
        ∧ Gltfio.interpolant D
          (Gltfio.selectPrevNext times (Gltfio.fmodQ t D)).1.1
          (Gltfio.selectPrevNext times (Gltfio.fmodQ t D)).2.1 (Gltfio.fmodQ t D) ≤ 1) := by
  have hne : times ≠ [] := by
    intro h; rw [h] at hlen; simp at hlen
  exact ⟨⟨Gltfio.fmodQ_lt t D hD, fun ht => Gltfio.fmodQ_nonneg t D ht hD⟩,
    fun h => Gltfio.selectPrevNext_end times _ h,
    fun h => Gltfio.selectPrevNext_begin times _ hne h,
    fun i h0 hi h1 h2 => Gltfio.selectPrevNext_middle times _ i hs h0 hi h1 h2,
    Gltfio.interpolant_bounds times D _ hs hlen hkeys (Gltfio.fmodQ_lt t D hD)⟩

/-- Witness for C3 (amended): the two-key timeline 0, 1 with duration 1 at
requested time 9/4 (wrapped time 1/4). -/
theorem C3_witness :
    0 ≤ Gltfio.interpolant 1
        (Gltfio.selectPrevNext [((0 : ℚ), 0), ((1 : ℚ), 1)]
          (Gltfio.fmodQ (9/4) 1)).1.1
        (Gltfio.selectPrevNext [((0 : ℚ), 0), ((1 : ℚ), 1)]
          (Gltfio.fmodQ (9/4) 1)).2.1 (Gltfio.fmodQ (9/4) 1)
      ∧ Gltfio.interpolant 1
        (Gltfio.selectPrevNext [((0 : ℚ), 0), ((1 : ℚ), 1)]
          (Gltfio.fmodQ (9/4) 1)).1.1
        (Gltfio.selectPrevNext [((0 : ℚ), 0), ((1 : ℚ), 1)]
          (Gltfio.fmodQ (9/4) 1)).2.1 (Gltfio.fmodQ (9/4) 1) ≤ 1 :=
  (C3_keyframe_selection_and_interpolant [((0 : ℚ), 0), ((1 : ℚ), 1)] 1 (9/4)
    (by with_unfolding_all decide) (by with_unfolding_all decide)
    (by with_unfolding_all decide) (by with_unfolding_all decide)).2.2.2.2

/-- C4: `applyAnimation` interpolates the source values at `prev.index`
and `next.index` per-component linearly (`(1-t)*a + t*b`) for TRANSLATION
and SCALE channels and by the quaternion slerp kernel for ROTATION
channels, writing the result as a pure translation, scale, or rotation
transform.  For the 2-keyframe LINEAR translation sampler with keys
0 -> (0,0,0) and 1 -> (10,0,0) and duration 1, evaluation at t = 1/4
yields translation (5/2, 0, 0), at t = 3/4 yields (15/2, 0, 0), and at
t = 1 (which wraps to 0) yields (0, 0, 0). -/
theorem C4_interpolation_kinds_and_example
    (slerpFn : Gltfio.Quat → Gltfio.Quat → ℚ → Gltfio.Quat) (D w : ℚ)
    (ch : Gltfio.Channel) (hlen : ¬ ch.sourceData.times.length < 2) :
    (ch.transformType = Gltfio.TransformType.TRANSLATION →
        Gltfio.evalChannel slerpFn D ch w
          = some (ch.targetInstance, Gltfio.XformSpec.translate (Gltfio.lerpVec3
              (Gltfio.interpolant D (Gltfio.selectPrevNext ch.sourceData.times w).1.1
                (Gltfio.selectPrevNext ch.sourceData.times w).2.1 w)
              (Gltfio.vec3At ch.sourceData.values
                (Gltfio.selectPrevNext ch.sourceData.times w).1.2)
              (Gltfio.vec3At ch.sourceData.values
                (Gltfio.selectPrevNext ch.sourceData.times w).2.2))))
    ∧ (ch.transformType = Gltfio.TransformType.SCALE →
        Gltfio.evalChannel slerpFn D ch w
          = some (ch.targetInstance, Gltfio.XformSpec.scale (Gltfio.lerpVec3
              (Gltfio.interpolant D (Gltfio.selectPrevNext ch.sourceData.times w).1.1
                (Gltfio.selectPrevNext ch.sourceData.times w).2.1 w)
              (Gltfio.vec3At ch.sourceData.values
                (Gltfio.selectPrevNext ch.sourceData.times w).1.2)
              (Gltfio.vec3At ch.sourceData.values
                (Gltfio.selectPrevNext ch.sourceData.times w).2.2))))
    ∧ (ch.transformType = Gltfio.TransformType.ROTATION →
        Gltfio.evalChannel slerpFn D ch w
          = some (ch.targetInstance, Gltfio.XformSpec.rotate (slerpFn
              (Gltfio.quatAt ch.sourceData.values
                (Gltfio.selectPrevNext ch.sourceData.times w).1.2)
              (Gltfio.quatAt ch.sourceData.values
                (Gltfio.selectPrevNext ch.sourceData.times w).2.2)
              (Gltfio.interpolant D (Gltfio.selectPrevNext ch.sourceData.times w).1.1
                (Gltfio.selectPrevNext ch.sourceData.times w).2.1 w))))
    ∧ Gltfio.applyAnimation slerpFn Gltfio.linTransAnim (1/4)
        = [(7, Gltfio.XformSpec.translate ⟨5/2, 0, 0⟩)]
    ∧ Gltfio.applyAnimation slerpFn Gltfio.linTransAnim (3/4)
        = [(7, Gltfio.XformSpec.translate ⟨15/2, 0, 0⟩)]
    ∧ Gltfio.applyAnimation slerpFn Gltfio.linTransAnim 1
        = [(7, Gltfio.XformSpec.translate ⟨0, 0, 0⟩)] := by
  have hconc : ∀ t : ℚ, Gltfio.applyAnimation slerpFn Gltfio.linTransAnim t
      = [(Gltfio.linTransChannel.targetInstance, Gltfio.XformSpec.translate
          (Gltfio.lerpVec3
            (Gltfio.interpolant Gltfio.linTransAnim.duration
              (Gltfio.selectPrevNext Gltfio.linTransChannel.sourceData.times
                (Gltfio.fmodQ t Gltfio.linTransAnim.duration)).1.1
              (Gltfio.selectPrevNext Gltfio.linTransChannel.sourceData.times
                (Gltfio.fmodQ t Gltfio.linTransAnim.duration)).2.1
              (Gltfio.fmodQ t Gltfio.linTransAnim.duration))
            (Gltfio.vec3At Gltfio.linTransChannel.sourceData.values
              (Gltfio.selectPrevNext Gltfio.linTransChannel.sourceData.times
                (Gltfio.fmodQ t Gltfio.linTransAnim.duration)).1.2)
            (Gltfio.vec3At Gltfio.linTransChannel.sourceData.values
              (Gltfio.selectPrevNext Gltfio.linTransChannel.sourceData.times
                (Gltfio.fmodQ t Gltfio.linTransAnim.duration)).2.2)))] := by
    intro t
    have h1 := Gltfio.evalChannel_translation slerpFn Gltfio.linTransAnim.duration
        (Gltfio.fmodQ t Gltfio.linTransAnim.duration) Gltfio.linTransChannel
        (by decide) rfl
    show List.filterMap _ Gltfio.linTransAnim.channels = _
    rw [show Gltfio.linTransAnim.channels = [Gltfio.linTransChannel] from rfl]
    rw [List.filterMap_cons, h1]
    rfl
  refine ⟨Gltfio.evalChannel_translation slerpFn D w ch hlen,
    Gltfio.evalChannel_scale slerpFn D w ch hlen,
    Gltfio.evalChannel_rotation slerpFn D w ch hlen, ?_, ?_, ?_⟩
  · rw [hconc (1/4)]
    with_unfolding_all decide
  · rw [hconc (3/4)]
    with_unfolding_all decide
  · rw [hconc 1]
    with_unfolding_all decide

/-- Witness for C4: the two-keyframe translation example at t = 1/4 under
the constant slerp stand-in. -/
theorem C4_witness :
    Gltfio.applyAnimation Gltfio.slerpConst Gltfio.linTransAnim (1/4)
      = [(7, Gltfio.XformSpec.translate ⟨5/2, 0, 0⟩)] :=
  (C4_interpolation_kinds_and_example Gltfio.slerpConst 1 0
    Gltfio.linTransChannel (by decide)).2.2.2.1

/-- C5: a channel whose sampler has fewer than 2 distinct time keys, or
whose animation has built duration zero, is skipped by `applyAnimation` as
a no-op: no `setTransform` call is produced for it, and an animation of
duration zero produces no `setTransform` calls at all.  The duration-zero
case uses that every channel's sampler belongs to the animation whose
duration was accumulated by the constructor, with strictly sorted
nonnegative time keys. -/
theorem C5_zero_duration_or_short_sampler_skipped
    (slerpFn : Gltfio.Quat → Gltfio.Quat → ℚ → Gltfio.Quat)
    (anim : Gltfio.Animation) (t : ℚ) (ch : Gltfio.Channel)
    (hmem : ch ∈ anim.channels)
    (hsrcAll : ∀ c ∈ anim.channels, c.sourceData ∈ anim.samplers)
    (hdur : anim.duration = Gltfio.computeDuration anim.samplers)
    (hsort : ∀ s ∈ anim.samplers, s.times.Pairwise (fun p q => p.1 < q.1))
    (hnn : ∀ s ∈ anim.samplers, ∀ p ∈ s.times, 0 ≤ p.1)
    (hskip : ch.sourceData.times.length < 2 ∨ anim.duration = 0) :
    Gltfio.evalChannel slerpFn anim.duration ch (Gltfio.fmodQ t anim.duration) = none
    ∧ (anim.duration = 0 → Gltfio.applyAnimation slerpFn anim t = []) := by
  have hshort : ∀ c ∈ anim.channels, anim.duration = 0 →
      c.sourceData.times.length < 2 := by
    intro c hc h0
    exact Gltfio.times_short_of_duration_zero anim.samplers c.sourceData
      (hsrcAll c hc) (hsort _ (hsrcAll c hc)) (hnn _ (hsrcAll c hc))
      (by rw [← hdur]; exact h0)
  constructor
  · rcases hskip with h | h
    · exact Gltfio.evalChannel_skip _ _ _ _ h
    · exact Gltfio.evalChannel_skip _ _ _ _ (hshort ch hmem h)
  · intro h0
    show List.filterMap _ anim.channels = []
    rw [List.filterMap_eq_nil_iff]
    intro c hc
    exact Gltfio.evalChannel_skip _ _ _ _ (hshort c hc h0)

/-- Witness for C5: the single-keyframe animation (built duration 0); its
channel is skipped and the whole evaluation writes nothing. -/
theorem C5_witness :
    Gltfio.evalChannel Gltfio.slerpConst Gltfio.oneKeyAnim.duration
        Gltfio.oneKeyChannel (Gltfio.fmodQ 5 Gltfio.oneKeyAnim.duration) = none
      ∧ (Gltfio.oneKeyAnim.duration = 0 →
          Gltfio.applyAnimation Gltfio.slerpConst Gltfio.oneKeyAnim 5 = []) :=
  C5_zero_duration_or_short_sampler_skipped Gltfio.slerpConst Gltfio.oneKeyAnim 5
    Gltfio.oneKeyChannel (by decide) (by with_unfolding_all decide)
    (by with_unfolding_all decide) (by with_unfolding_all decide)
    (by with_unfolding_all decide) (Or.inl (by decide))

/-- Counterexample to C6: a channel declaring STEP interpolation is
neither logged nor skipped by `applyAnimation`: it is evaluated exactly
like a LINEAR channel (value (5/2, 0, 0) at t = 1/4, the linear blend) and
its `setTransform` call is produced. -/
theorem C6_counterexample :
    Gltfio.stepChannel.sourceData.interpolation = Gltfio.Interp.STEP
      ∧ Gltfio.applyAnimation Gltfio.slerpConst Gltfio.stepAnim (1/4)
          = [(3, Gltfio.XformSpec.translate ⟨5/2, 0, 0⟩)] := by
  with_unfolding_all decide

/-- C6 (amended): `applyAnimation` never reads a sampler's declared
interpolation mode: replacing the mode by STEP or CUBIC (or anything
else) leaves the evaluation of the channel unchanged, so STEP and CUBIC
samplers are silently evaluated with the LINEAR kernel — they are not
skipped and nothing is logged — and the call never fails on them. -/
theorem C6_interpolation_mode_ignored
    (slerpFn : Gltfio.Quat → Gltfio.Quat → ℚ → Gltfio.Quat) (D w : ℚ)
    (ch : Gltfio.Channel) (mode : Gltfio.Interp) :
    Gltfio.evalChannel slerpFn D
        { ch with sourceData := { ch.sourceData with interpolation := mode } } w
      = Gltfio.evalChannel slerpFn D ch w
    ∧ (¬ ch.sourceData.times.length < 2 →
        (Gltfio.evalChannel slerpFn D ch w).isSome = true) := by
  constructor
  · rfl
  · intro h
    unfold Gltfio.evalChannel
    rw [if_neg h]
    rfl

/-- Witness for C6 (amended): the two-keyframe channel evaluated with a
CUBIC mode override still produces its transform. -/
theorem C6_witness :
    (Gltfio.evalChannel Gltfio.slerpConst 1 Gltfio.linTransChannel (1/2)).isSome
      = true :=
  (C6_interpolation_mode_ignored Gltfio.slerpConst 1 (1/2)
    Gltfio.linTransChannel Gltfio.Interp.CUBIC).2 (by decide)

/-- C8: for a built animation, `getAnimationDuration` returns the maximum,
over all samplers with more than one distinct time key, of that sampler's
largest time key, and returns 0 when no sampler qualifies.  The duration
bounds every qualifying sampler's largest key from above, is attained by
one of them when any qualifies (given nonnegative largest keys, as produced
from valid glTF time data), and with strictly sorted keys the stored
largest key is indeed the sampler's maximum key. -/
theorem C8_get_animation_duration (anims : List Gltfio.Animation) (i : ℕ)
    (srcName : Option String) (samplers : List Gltfio.Sampler)
    (channels : List Gltfio.Channel)
    (hbuilt : anims.getD i default = Gltfio.buildAnimation srcName samplers channels)
    (hnn : ∀ s ∈ samplers, 1 < s.times.length → 0 ≤ Gltfio.maxTimeKey s)
    (hsort : ∀ s ∈ samplers, s.times.Pairwise (fun p q => p.1 < q.1)) :
    (∀ s ∈ samplers, 1 < s.times.length →
        Gltfio.maxTimeKey s ≤ Gltfio.getAnimationDuration anims i)
    ∧ ((∃ s ∈ samplers, 1 < s.times.length) →
        ∃ s ∈ samplers, 1 < s.times.length
          ∧ Gltfio.getAnimationDuration anims i = Gltfio.maxTimeKey s)
    ∧ ((∀ s ∈ samplers, ¬ 1 < s.times.length) →
        Gltfio.getAnimationDuration anims i = 0)
    ∧ (∀ s ∈ samplers, ∀ p ∈ s.times, p.1 ≤ Gltfio.maxTimeKey s) := by
  have hdur : Gltfio.getAnimationDuration anims i
      = samplers.foldl Gltfio.durStep 0 := by
    unfold Gltfio.getAnimationDuration
    rw [hbuilt]
    rfl
  refine ⟨?_, ?_, ?_, ?_⟩
  · intro s hsm hq
    rw [hdur]
    exact Gltfio.maxTimeKey_le_foldl_durStep samplers 0 s hsm hq
  · rintro ⟨s0, hs0, hq0⟩
    rw [hdur]
    rcases Gltfio.foldl_durStep_cases samplers 0 with h | ⟨s, hsm, hq, hv⟩
    · refine ⟨s0, hs0, hq0, ?_⟩
      have h1 := Gltfio.maxTimeKey_le_foldl_durStep samplers 0 s0 hs0 hq0
      have h2 := hnn s0 hs0 hq0
      rw [h] at h1 ⊢
      linarith
    · exact ⟨s, hsm, hq, hv⟩
  · intro hall
    rw [hdur]
    exact Gltfio.foldl_durStep_skip samplers 0 hall
  · intro s hsm p hp
    exact Gltfio.key_le_maxTimeKey s (hsort s hsm) p hp

/-- Witness for C8: the two-keyframe animation; its duration is attained
as the largest key of a qualifying sampler. -/
theorem C8_witness :
    ∃ s ∈ [Gltfio.linTransSampler], 1 < s.times.length
      ∧ Gltfio.getAnimationDuration [Gltfio.linTransAnim] 0 = Gltfio.maxTimeKey s :=
  (C8_get_animation_duration [Gltfio.linTransAnim] 0 none [Gltfio.linTransSampler]
    [Gltfio.linTransChannel] rfl (by with_unfolding_all decide)
    (by with_unfolding_all decide)).2.1
    ⟨Gltfio.linTransSampler, by decide, by decide⟩

/-- C9: `updateBoneMatrices` computes, for every skin and joint index, the
bone matrix as the matrix product joint-world-transform times
inverse-bind-matrix, in that order, producing one matrix per joint, and
hands the resulting array to every renderable target of the skin; with
identity inverse-bind matrices and identity joint world transforms every
resulting bone matrix is the identity. -/
theorem C9_update_bone_matrices (world : ℕ → Gltfio.Mat4)
    (skins : List Gltfio.Skin)
    (hlen : ∀ sk ∈ skins, sk.joints.length = sk.inverseBindMatrices.length) :
    (∀ sk ∈ skins, Gltfio.computeBoneMatrices world sk
        = List.zipWith (fun j m => world j * m) sk.joints sk.inverseBindMatrices)
    ∧ (∀ sk ∈ skins,
        (Gltfio.computeBoneMatrices world sk).length = sk.joints.length)
    ∧ (∀ sk ∈ skins, ∀ tgt ∈ sk.targets,
        (tgt, Gltfio.computeBoneMatrices world sk)
          ∈ Gltfio.updateBoneMatrices world skins)
    ∧ ((∀ j, world j = 1) →
        ∀ sk ∈ skins, (∀ m ∈ sk.inverseBindMatrices, m = 1) →
          Gltfio.computeBoneMatrices world sk
            = List.replicate sk.joints.length (1 : Gltfio.Mat4)) := by
  refine ⟨fun sk _ => Gltfio.computeBoneMatrices_eq_zipWith world sk, ?_, ?_, ?_⟩
  · intro sk hsk
    rw [Gltfio.computeBoneMatrices_eq_zipWith]
    rw [List.length_zipWith, hlen sk hsk, Nat.min_self]
  · intro sk hsk tgt htgt
    unfold Gltfio.updateBoneMatrices
    rw [List.mem_flatten]
    exact ⟨_, List.mem_map_of_mem _ hsk, List.mem_map_of_mem _ htgt⟩
  · intro hw sk hsk hm
    rw [Gltfio.computeBoneMatrices_eq_zipWith]
    exact Gltfio.zipWith_boneMatrices_identity world sk.joints
      sk.inverseBindMatrices hw hm (hlen sk hsk)

/-- Witness for C9: a one-joint skin with identity inverse-bind matrix and
identity world transforms; the bone-matrix array is the identity array. -/
theorem C9_witness :
    Gltfio.computeBoneMatrices (fun _ => (1 : Gltfio.Mat4)) Gltfio.identitySkin
      = List.replicate Gltfio.identitySkin.joints.length (1 : Gltfio.Mat4) :=
  (C9_update_bone_matrices (fun _ => (1 : Gltfio.Mat4)) [Gltfio.identitySkin]
    (by simp [Gltfio.identitySkin])).2.2.2 (fun _ => rfl) Gltfio.identitySkin
    (by simp) (by simp [Gltfio.identitySkin])

/-- C10: for a built animation, `getAnimationName` returns a non-null
pointer: the `std::string` name is default-constructed empty and assigned
only when the glTF animation has a name, and `c_str()` never returns null,
so an animation built from a source without a name yields a pointer to the
empty C string. -/
theorem C10_animation_name_non_null (anims : List Gltfio.Animation) (i : ℕ)
    (srcName : Option String) (samplers : List Gltfio.Sampler)
    (channels : List Gltfio.Channel)
    (hbuilt : anims.getD i default
      = Gltfio.buildAnimation srcName samplers channels) :
    (∃ s, Gltfio.getAnimationName anims i = some s)
    ∧ (srcName = none → Gltfio.getAnimationName anims i = some "") := by
  constructor
  · exact ⟨(anims.getD i default).name, rfl⟩
  · intro hn
    unfold Gltfio.getAnimationName Gltfio.cStr
    rw [hbuilt, hn]
    rfl

/-- Witness for C10: the unnamed two-keyframe animation; its name is the
empty string, not null. -/
theorem C10_witness :
    Gltfio.getAnimationName [Gltfio.linTransAnim] 0 = some "" :=
  (C10_animation_name_non_null [Gltfio.linTransAnim] 0 none
    [Gltfio.linTransSampler] [Gltfio.linTransChannel] rfl).2 rfl
